import Mathlib

/-!
Verification of the ASCII art generator (`src/ascii_art.py`).

The program is a single function `image_to_ascii(file_path, columns, scale, chars)`
plus a thin `__main__` entry point.  We shallowly embed it as follows:

* A Python string is a `List Char`; the grayscale pixel matrix produced by
  `np.array(grayscale_image)` is a `List (List ℕ)` of values in `[0, 255]`.
* The external imaging steps (`Image.open`, `resize`, `convert("L")`) are
  abstracted by a `LoadOutcome`: either the file was not found
  (`FileNotFoundError`), some other exception was raised during
  decoding/resizing/conversion, or a grayscale pixel matrix was obtained.
* Python integer division `//` on naturals is `Nat` division.  Division by
  zero can only occur at two sites: line 76 (`255 // len(chars)`, pure Python
  ints, raising `ZeroDivisionError` for an empty ramp — tracked with `Except`)
  and line 81 (`pixel // pixel_range`, where `pixel` is a NumPy `uint8`
  scalar: NumPy integer floor division by zero does not raise, it emits a
  `RuntimeWarning` and returns 0 — which coincides with Lean's `x / 0 = 0`).
* Python's `float` arithmetic for `int(scale * aspect_ratio * new_width)` is
  modelled with exact rational arithmetic (`ℚ`), with `int` truncating toward
  zero.
-/

namespace AsciiArt

/-- The default character ramp `" .,:;ox%#@"` (parameter `chars` of
`image_to_ascii`). -/
def defaultChars : List Char := [' ', '.', ',', ':', ';', 'o', 'x', '%', '#', '@']

/-- Line 76: `pixel_range = 255 // len(chars)`.  (When `chars` is empty the
Python line itself raises `ZeroDivisionError`; that case is handled in
`renderMatrix` below, so this definition is only meaningful for nonempty
`chars`.) -/
def pixelRange (chars : List Char) : ℕ := 255 / chars.length

/-- Lines 81–82: `index = pixel // pixel_range; index = min(index, len(chars) - 1)`.
`pixel` is a NumPy `uint8` scalar, so when `pixel_range` is 0 (ramps longer
than 255 characters) the floor division returns 0 with a `RuntimeWarning`
rather than raising, exactly Lean's `pixel / 0 = 0`. -/
def pixelIndex (chars : List Char) (pixel : ℕ) : ℕ :=
  min (pixel / pixelRange chars) (chars.length - 1)

/-- Lines 79–83: the inner loop building `row_chars` one character at a time.
`none` models an uncaught `IndexError` from `chars[index]` (which never
actually happens for a nonempty ramp, as proved below); the division on
line 81 never raises, since NumPy `uint8` floor division by zero returns 0. -/
def renderRow (chars : List Char) : List ℕ → Option (List Char)
  | [] => some []
  | pixel :: rest => do
    let c ← chars.get? (pixelIndex chars pixel)
    let tail ← renderRow chars rest
    return c :: tail

/-- Lines 78–84: the outer loop accumulating `ascii_art`, one entry per matrix
row. -/
def asciiRows (chars : List Char) : List (List ℕ) → Option (List (List Char))
  | [] => some []
  | row :: rows => do
    let rc ← renderRow chars row
    let rest ← asciiRows chars rows
    return rc :: rest

/-- Python's message for `ZeroDivisionError` on `//` (pure-int division, line 76). -/
def zeroDivMsg : String := "integer division or modulo by zero"

/-- Python's message for `IndexError` on string indexing (line 83; proved
unreachable for nonempty ramps). -/
def indexErrMsg : String := "string index out of range"

/-- Line 86: `"\n".join(ascii_art)` on char lists. -/
def joinLines : List (List Char) → List Char
  | [] => []
  | [row] => row
  | row :: rows => row ++ '\n' :: joinLines rows

/-- Lines 76–86: the pure part of `image_to_ascii` applied to the grayscale
pixel matrix, with any raised exception reported in the `Except.error` case.
The only exception this region can actually raise is `ZeroDivisionError` on
line 76 when `chars` is empty (the per-pixel NumPy division never raises, and
the `IndexError` case of the loop is unreachable for nonempty ramps). -/
def renderMatrix (chars : List Char) (m : List (List ℕ)) : Except String String :=
  if chars.length = 0 then .error zeroDivMsg
  else
    match asciiRows chars m with
    | none => .error indexErrMsg
    | some rows => .ok (String.mk (joinLines rows))

/-- The outcome of the external imaging pipeline for a given call
(`Image.open` / `resize` / `convert("L")` / `np.array`):
`fileNotFound` when `Image.open` raises `FileNotFoundError`,
`loadError msg` when any of those steps raises another exception with message
`msg`, and `loaded m` when they produce the grayscale resized pixel matrix `m`. -/
inductive LoadOutcome where
  | fileNotFound : LoadOutcome
  | loadError : String → LoadOutcome
  | loaded : List (List ℕ) → LoadOutcome
deriving DecidableEq

/-- Line 88: the string returned on `FileNotFoundError`. -/
def fileNotFoundMsg : String := "Error: The file was not found. Check the file path."

/-- Lines 60–90: `image_to_ascii`, given the outcome of the external imaging
steps.  The `try/except` converts `FileNotFoundError` to `fileNotFoundMsg` and
any other exception `e` to `"An error occurred: " ++ e`. -/
def image_to_ascii (load : LoadOutcome) (chars : List Char) : String :=
  match load with
  | .fileNotFound => fileNotFoundMsg
  | .loadError e => "An error occurred: " ++ e
  | .loaded m =>
    match renderMatrix chars m with
    | .ok art => art
    | .error e => "An error occurred: " ++ e

/-- The observable effect of the `__main__` block. -/
inductive MainAction where
  | printError : String → MainAction
  | writeFile : String → String → MainAction
deriving DecidableEq

/-- Python `s.startswith(pre)` on our char-list view of strings. -/
def pyStartsWith (s pre : String) : Bool := pre.data.isPrefixOf s.data

/-- Lines 95–101: branch on `ascii_art.startswith("Error:")`; print the string
if so, otherwise write it to `ascii_art.txt`. -/
def mainStep (asciiArt : String) : MainAction :=
  if pyStartsWith asciiArt "Error:" then .printError asciiArt
  else .writeFile "ascii_art.txt" asciiArt

/-- Python `int()` on an exact rational: truncation toward zero. -/
def intTrunc (x : ℚ) : ℤ := if 0 ≤ x then ⌊x⌋ else ⌈x⌉

/-- Lines 63–66: `aspect_ratio = height / width; new_width = columns;
new_height = int(scale * aspect_ratio * new_width)`, with Python floats
modelled as exact rationals. -/
def newHeight (scale : ℚ) (width height columns : ℕ) : ℤ :=
  intTrunc (scale * ((height : ℚ) / (width : ℚ)) * (columns : ℚ))

/-- Spec-side formula (spec §4.1 steps 5–6): each pixel `p` is rendered as
`ramp[min(floor(p / floor(255 / len(ramp))), len(ramp) - 1)]` and a matrix
row becomes the concatenation of its pixels' characters.  (`getD`'s default
is irrelevant: the index is in bounds whenever the ramp is nonempty.) -/
def specRenderRow (chars : List Char) (row : List ℕ) : List Char :=
  row.map fun p => chars.getD (min (p / (255 / chars.length)) (chars.length - 1)) ' '

/-- Spec-side splitter realising "newline-separated rows" of an output string,
with Python `str.split("\n")` semantics. -/
def splitLines : List Char → List (List Char)
  | [] => [[]]
  | c :: cs =>
    if c = '\n' then [] :: splitLines cs
    else
      match splitLines cs with
      | [] => [[c]]
      | l :: ls => (c :: l) :: ls

lemma pixelRange_ne_zero {chars : List Char} (h1 : 1 ≤ chars.length)
    (h2 : chars.length ≤ 255) : pixelRange chars ≠ 0 := by
  have : 1 ≤ 255 / chars.length := (Nat.one_le_div_iff (by omega)).mpr h2
  simp only [pixelRange]
  omega

lemma pixelIndex_lt {chars : List Char} (h1 : 1 ≤ chars.length) (p : ℕ) :
    pixelIndex chars p < chars.length := by
  have h := min_le_right (p / pixelRange chars) (chars.length - 1)
  simp only [pixelIndex]
  omega

lemma get?_pixelIndex_eq {chars : List Char} (h1 : 1 ≤ chars.length) (p : ℕ) :
    chars.get? (pixelIndex chars p) =
      some (chars.getD (pixelIndex chars p) ' ') := by
  have h := pixelIndex_lt h1 p
  rw [List.get?_eq_get h, List.getD_eq_get _ _ h]

lemma renderRow_eq {chars : List Char} (h1 : 1 ≤ chars.length) (row : List ℕ) :
    renderRow chars row = some (specRenderRow chars row) := by
  induction row with
  | nil => rfl
  | cons p ps ih =>
    simp only [renderRow, get?_pixelIndex_eq h1, ih, Option.bind_some,
      specRenderRow, List.map_cons]
    rfl

lemma asciiRows_eq {chars : List Char} (h1 : 1 ≤ chars.length)
    (m : List (List ℕ)) :
    asciiRows chars m = some (m.map (specRenderRow chars)) := by
  induction m with
  | nil => rfl
  | cons row rows ih =>
    simp only [asciiRows, renderRow_eq h1, ih, Option.bind_some, List.map_cons]
    rfl

lemma renderMatrix_eq {chars : List Char} (h1 : 1 ≤ chars.length)
    (m : List (List ℕ)) :
    renderMatrix chars m =
      .ok (String.mk (joinLines (m.map (specRenderRow chars)))) := by
  simp only [renderMatrix, asciiRows_eq h1]
  rw [if_neg (by omega)]

lemma specRenderRow_length (chars : List Char) (row : List ℕ) :
    (specRenderRow chars row).length = row.length := by
  simp [specRenderRow]

lemma mem_specRenderRow {chars : List Char} (h1 : 1 ≤ chars.length)
    {row : List ℕ} {c : Char} (hc : c ∈ specRenderRow chars row) : c ∈ chars := by
  simp only [specRenderRow, List.mem_map] at hc
  obtain ⟨p, -, rfl⟩ := hc
  have h := pixelIndex_lt h1 p
  rw [show min (p / (255 / chars.length)) (chars.length - 1) = pixelIndex chars p from rfl,
    List.getD_eq_get _ _ h]
  exact List.get_mem _ _ _

lemma splitLines_of_no_newline (r : List Char) (h : '\n' ∉ r) :
    splitLines r = [r] := by
  induction r with
  | nil => rfl
  | cons c cs ih =>
    have hc : c ≠ '\n' := fun hc => h (hc ▸ List.mem_cons_self _ _)
    have hcs : '\n' ∉ cs := fun hm => h (List.mem_cons_of_mem _ hm)
    simp only [splitLines, if_neg hc, ih hcs]

lemma splitLines_append (r xs : List Char) (h : '\n' ∉ r) :
    splitLines (r ++ '\n' :: xs) = r :: splitLines xs := by
  induction r with
  | nil => simp [splitLines]
  | cons c cs ih =>
    have hc : c ≠ '\n' := fun hc => h (hc ▸ List.mem_cons_self _ _)
    have hcs : '\n' ∉ cs := fun hm => h (List.mem_cons_of_mem _ hm)
    simp only [List.cons_append, splitLines, if_neg hc, List.append_eq, ih hcs]

lemma splitLines_joinLines :
    ∀ rows : List (List Char), rows ≠ [] → (∀ r ∈ rows, '\n' ∉ r) →
      splitLines (joinLines rows) = rows
  | [], h, _ => absurd rfl h
  | [r], _, hnl => by
      simpa [joinLines] using splitLines_of_no_newline r (hnl r (List.mem_singleton.mpr rfl))
  | r :: s :: t, _, hnl => by
      have hr : '\n' ∉ r := hnl r (List.mem_cons_self _ _)
      have ht : ∀ x ∈ s :: t, '\n' ∉ x := fun x hx => hnl x (List.mem_cons_of_mem _ hx)
      simp only [joinLines, splitLines_append _ _ hr]
      rw [splitLines_joinLines (s :: t) (by simp) ht]

lemma mem_joinLines :
    ∀ (rows : List (List Char)) (c : Char), c ∈ joinLines rows →
      (∃ r ∈ rows, c ∈ r) ∨ c = '\n'
  | [], _, h => absurd h (List.not_mem_nil _)
  | [r], c, h => .inl ⟨r, List.mem_singleton.mpr rfl, by simpa [joinLines] using h⟩
  | r :: s :: t, c, h => by
      simp only [joinLines, List.mem_append, List.mem_cons] at h
      rcases h with h | h | h
      · exact .inl ⟨r, List.mem_cons_self _ _, h⟩
      · exact .inr h
      · rcases mem_joinLines (s :: t) c h with ⟨x, hx, hcx⟩ | hnl
        · exact .inl ⟨x, List.mem_cons_of_mem _ hx, hcx⟩
        · exact .inr hnl

/-- C1: for every decodable image (i.e. every grayscale resized pixel matrix,
all values in [0, 255]) and every non-empty ramp of length at most 255, the
render succeeds and each pixel value `p` is rendered as the character
`ramp[min(p // (255 // len(ramp)), len(ramp) - 1)]`, the characters of each
matrix row being concatenated in order into one output row string, rows joined
by newlines. -/
theorem C1_pixel_quantization_concatenation (chars : List Char) (m : List (List ℕ))
    (h1 : 1 ≤ chars.length) (h2 : chars.length ≤ 255)
    (hpix : ∀ row ∈ m, ∀ p ∈ row, p ≤ 255) :
    renderMatrix chars m =
      .ok (String.mk (joinLines (m.map (specRenderRow chars)))) :=
  renderMatrix_eq h1 m

theorem C1_witness :
    renderMatrix defaultChars [[0, 255], [100, 200]] =
      .ok (String.mk (joinLines ([[0, 255], [100, 200]].map (specRenderRow defaultChars)))) :=
  C1_pixel_quantization_concatenation defaultChars [[0, 255], [100, 200]]
    (by decide) (by decide) (by decide)

/-- C2: for every decodable image of width `W > 0` and height `H`, if the
render succeeds then the returned string has exactly
`int(scale * (H/W) * columns)` newline-separated rows and every row has length
exactly `columns`.  The resized grayscale matrix `m` has
`int(scale * (H/W) * columns)` rows of `columns` pixels each (the resize's
output dimensions, which the render can only succeed on when at least one row
exists); the ramp is any non-empty newline-free ramp of length at most 255. -/
theorem C2_output_shape (chars : List Char) (scale : ℚ) (W H columns : ℕ)
    (m : List (List ℕ)) (s : String)
    (hW : 0 < W)
    (h1 : 1 ≤ chars.length) (h2 : chars.length ≤ 255) (hnl : '\n' ∉ chars)
    (hdim : m.length = (newHeight scale W H columns).toNat)
    (hpos : 1 ≤ m.length)
    (hrow : ∀ row ∈ m, row.length = columns)
    (hok : renderMatrix chars m = .ok s) :
    (splitLines s.data).length = (newHeight scale W H columns).toNat ∧
      ∀ line ∈ splitLines s.data, line.length = columns := by
  rw [renderMatrix_eq h1 m] at hok
  injection hok with hok
  subst hok
  have hne : m.map (specRenderRow chars) ≠ [] := by
    intro h
    rw [List.map_eq_nil] at h
    subst h
    simp at hpos
  have hnl2 : ∀ r ∈ m.map (specRenderRow chars), '\n' ∉ r := by
    intro r hr hmem
    obtain ⟨row, -, rfl⟩ := List.mem_map.mp hr
    exact hnl (mem_specRenderRow h1 hmem)
  have hsplit : splitLines (String.mk (joinLines (m.map (specRenderRow chars)))).data =
      m.map (specRenderRow chars) := splitLines_joinLines _ hne hnl2
  refine ⟨?_, ?_⟩
  · rw [hsplit]
    simpa using hdim
  · intro line hline
    rw [hsplit] at hline
    obtain ⟨row, hrowm, rfl⟩ := List.mem_map.mp hline
    rw [specRenderRow_length]
    exact hrow row hrowm

theorem C2_output_shape_witness :
    (splitLines ("          \n          \n          \n          \n          " : String).data).length =
      (newHeight (1/2) 10 10 10).toNat ∧
    ∀ line ∈ splitLines ("          \n          \n          \n          \n          " : String).data,
      line.length = 10 :=
  C2_output_shape defaultChars (1/2) 10 10 10 (List.replicate 5 (List.replicate 10 0))
    "          \n          \n          \n          \n          "
    (by norm_num) (by decide) (by decide) (by decide)
    (by
      have h5 : newHeight (1/2) 10 10 10 = 5 := by
        simp [newHeight, intTrunc]
        norm_num
      rw [List.length_replicate, h5]
      rfl)
    (by simp) (by decide) rfl

set_option maxRecDepth 4000 in
set_option maxRecDepth 4000 in
/-- C3 counterexample: for the 256-character ramp `'a'` followed by 255 `'b'`s,
`pixel_range = 255 // 256 = 0`, and the NumPy `uint8` division `255 // 0`
returns 0 (with a `RuntimeWarning`), so the pixel value 255 gets index 0 —
the ramp's first character `'a'`, not its last character `'b'` at index 255 —
and the render returns `"a"`. -/
theorem C3_counterexample_len256 :
    pixelRange ('a' :: List.replicate 255 'b') = 0 ∧
    pixelIndex ('a' :: List.replicate 255 'b') 255 = 0 ∧
    ('a' :: List.replicate 255 'b').length - 1 = 255 ∧
    ('a' :: List.replicate 255 'b').getLast? = some 'b' ∧
    renderMatrix ('a' :: List.replicate 255 'b') [[255]] = .ok "a" := by
  refine ⟨?_, ?_, ?_, ?_, ?_⟩ <;> rfl

/-- C3 amended: for every non-empty ramp the computed index for pixel value
255 is in bounds; and whenever the ramp's length is at most 255, the index
equals `len(ramp) - 1`, selecting the ramp's last character.  (For longer
ramps `pixel_range` is 0, NumPy's `uint8` division by zero yields 0, and
every pixel — 255 included — maps to the ramp's first character instead.) -/
theorem C3_max_pixel_maps_to_last (chars : List Char) (h1 : 1 ≤ chars.length) :
    pixelIndex chars 255 < chars.length ∧
    (chars.length ≤ 255 →
      pixelIndex chars 255 = chars.length - 1 ∧
      chars.get? (pixelIndex chars 255) = chars.getLast?) := by
  refine ⟨pixelIndex_lt h1 255, fun h2 => ?_⟩
  have hd : 0 < pixelRange chars := Nat.pos_of_ne_zero (pixelRange_ne_zero h1 h2)
  have hmul : chars.length * pixelRange chars ≤ 255 := by
    have := Nat.div_mul_le_self 255 chars.length
    simpa [pixelRange, Nat.mul_comm] using this
  have hle : chars.length ≤ 255 / pixelRange chars :=
    (Nat.le_div_iff_mul_le hd).mpr hmul
  have hidx : pixelIndex chars 255 = chars.length - 1 := by
    simp only [pixelIndex]
    omega
  exact ⟨hidx, by rw [hidx, List.getLast?_eq_get? chars]⟩

theorem C3_max_pixel_maps_to_last_witness :
    pixelIndex defaultChars 255 < defaultChars.length ∧
    (defaultChars.length ≤ 255 →
      pixelIndex defaultChars 255 = defaultChars.length - 1 ∧
      defaultChars.get? (pixelIndex defaultChars 255) = defaultChars.getLast?) :=
  C3_max_pixel_maps_to_last defaultChars (by decide)

/-- C4: contrary to the claim, a processing error (any failure other than
file-not-found, e.g. `PIL.UnidentifiedImageError` on an existing but
undecodable `img.png`) yields the string `"An error occurred: ..."`, which does
not start with `"Error:"`, so the `__main__` block writes that error message
into `ascii_art.txt` instead of printing it and skipping the write. -/
theorem C4_processing_error_is_written_to_file :
    image_to_ascii (.loadError "cannot identify image file") defaultChars =
      "An error occurred: cannot identify image file" ∧
    pyStartsWith "An error occurred: cannot identify image file" "Error:" = false ∧
    mainStep (image_to_ascii (.loadError "cannot identify image file") defaultChars) =
      .writeFile "ascii_art.txt" "An error occurred: cannot identify image file" := by
  refine ⟨?_, ?_, ?_⟩ <;> rfl

/-- C5 counterexample: a directory path does not resolve to a readable file,
but `Image.open` raises `IsADirectoryError`, not `FileNotFoundError`, so the
render returns `"An error occurred: [Errno 21] Is a directory: 'images'"` — a
message that does not contain `"not found"` even case-insensitively — and,
since it does not start with `"Error:"`, the `__main__` block writes it to the
output file rather than skipping the write. -/
theorem C5_counterexample_directory_path :
    image_to_ascii (.loadError "[Errno 21] Is a directory: 'images'") defaultChars =
      "An error occurred: [Errno 21] Is a directory: 'images'" ∧
    ¬ List.IsInfix ("not found".data)
      (("An error occurred: [Errno 21] Is a directory: 'images'" : String).data.map
        Char.toLower) ∧
    mainStep (image_to_ascii (.loadError "[Errno 21] Is a directory: 'images'") defaultChars) =
      .writeFile "ascii_art.txt" "An error occurred: [Errno 21] Is a directory: 'images'" :=
  ⟨rfl, by decide, rfl⟩

/-- C5 amended: for a path whose open raises `FileNotFoundError` (a
nonexistent path), the render returns the distinguished message
`"Error: The file was not found. Check the file path."`, whose lowercasing
contains `"not found"`, and the `__main__` block prints it and does not write
the output file.  (Other unreadable paths — a directory, a permission-denied
file — raise other `OSError`s and fall to the generic
`"An error occurred: ..."` message, which `__main__` writes to the file.) -/
theorem C5_file_not_found_result (chars : List Char) :
    image_to_ascii .fileNotFound chars = fileNotFoundMsg ∧
    (∃ a b : List Char,
      fileNotFoundMsg.data.map Char.toLower = a ++ "not found".data ++ b) ∧
    mainStep (image_to_ascii .fileNotFound chars) = .printError fileNotFoundMsg :=
  ⟨rfl, ⟨"error: the file was ".data, ". check the file path.".data, rfl⟩, rfl⟩

/-- C6: quantization is monotone: whenever the quantization is defined
(`pixel_range ≠ 0`) and `p1 < p2` are grayscale values in [0, 255], the ramp
index chosen for `p1` is at most the one chosen for `p2`. -/
theorem C6_quantization_monotone (chars : List Char) (p1 p2 : ℕ)
    (hdef : pixelRange chars ≠ 0) (hlt : p1 < p2) (hp2 : p2 ≤ 255) :
    pixelIndex chars p1 ≤ pixelIndex chars p2 :=
  min_le_min (Nat.div_le_div_right (le_of_lt hlt)) le_rfl

theorem C6_quantization_monotone_witness :
    pixelIndex defaultChars 10 ≤ pixelIndex defaultChars 100 :=
  C6_quantization_monotone defaultChars 10 100 (by decide) (by decide) (by decide)

/-- C7: for every outcome of the external imaging steps and every ramp,
`image_to_ascii` returns a string and never propagates an exception: the
result is the file-not-found message, a generic `"An error occurred: ..."`
message carrying the underlying failure description, or the successfully
rendered art. -/
theorem C7_never_raises (load : LoadOutcome) (chars : List Char) :
    image_to_ascii load chars = fileNotFoundMsg ∨
    (∃ e, image_to_ascii load chars = "An error occurred: " ++ e) ∨
    (∃ m art, load = .loaded m ∧ renderMatrix chars m = .ok art ∧
      image_to_ascii load chars = art) := by
  cases load with
  | fileNotFound => exact .inl rfl
  | loadError e => exact .inr (.inl ⟨e, rfl⟩)
  | loaded m =>
    cases h : renderMatrix chars m with
    | ok art =>
      exact .inr (.inr ⟨m, art, rfl, h, by simp [image_to_ascii, h]⟩)
    | error e =>
      exact .inr (.inl ⟨e, by simp [image_to_ascii, h]⟩)

/-- C8: a 10×10 all-white image at `columns = 10`, `scale = 0.5` resizes to a
5×10 grid (since `int(0.5 * (10/10) * 10) = 5`) of grayscale value 255, and
rendering it with the default ramp gives exactly 5 rows of 10 `'@'`
characters. -/
theorem C8_white_10x10_scenario :
    newHeight (1/2) 10 10 10 = 5 ∧
    renderMatrix defaultChars (List.replicate 5 (List.replicate 10 255)) =
      .ok "@@@@@@@@@@\n@@@@@@@@@@\n@@@@@@@@@@\n@@@@@@@@@@\n@@@@@@@@@@" ∧
    (splitLines ("@@@@@@@@@@\n@@@@@@@@@@\n@@@@@@@@@@\n@@@@@@@@@@\n@@@@@@@@@@" : String).data).length = 5 ∧
    ∀ line ∈ splitLines ("@@@@@@@@@@\n@@@@@@@@@@\n@@@@@@@@@@\n@@@@@@@@@@\n@@@@@@@@@@" : String).data,
      line = List.replicate 10 '@' := by
  refine ⟨?_, rfl, rfl, by decide⟩
  simp [newHeight, intTrunc]
  norm_num

/-- C9: for every non-empty ramp of length at most 255 and pixel value
`p ≤ 255`, the division on line 81 is by a nonzero value and the computed
index `min(p // (255 // len(chars)), len(chars) - 1)` is in
`[0, len(chars) - 1]`, so `chars[index]` never goes out of bounds. -/
theorem C9_index_in_bounds (chars : List Char) (p : ℕ)
    (h1 : 1 ≤ chars.length) (h2 : chars.length ≤ 255) (hp : p ≤ 255) :
    pixelRange chars ≠ 0 ∧
    pixelIndex chars p ≤ chars.length - 1 ∧
    pixelIndex chars p < chars.length ∧
    (chars.get? (pixelIndex chars p)).isSome = true := by
  refine ⟨pixelRange_ne_zero h1 h2, min_le_right _ _, pixelIndex_lt h1 p, ?_⟩
  rw [get?_pixelIndex_eq h1 p]
  rfl

theorem C9_index_in_bounds_witness :
    pixelRange defaultChars ≠ 0 ∧
    pixelIndex defaultChars 255 ≤ defaultChars.length - 1 ∧
    pixelIndex defaultChars 255 < defaultChars.length ∧
    (defaultChars.get? (pixelIndex defaultChars 255)).isSome = true :=
  C9_index_in_bounds defaultChars 255 (by decide) (by decide) (by decide)

/-- C10: for a ramp of exactly one character `c`, every pixel value `p ≤ 255`
(255 included) gets index 0, and any successfully rendered output consists of
`c` repeated, apart from the newline separators. -/
theorem C10_singleton_ramp (c : Char) (m : List (List ℕ)) (s : String)
    (hok : renderMatrix [c] m = .ok s) :
    (∀ p : ℕ, p ≤ 255 → pixelIndex [c] p = 0) ∧
    ∀ ch ∈ s.data, ch = c ∨ ch = '\n' := by
  constructor
  · intro p _
    simp [pixelIndex]
  · intro ch hch
    have heq := @renderMatrix_eq [c] (by simp) m
    rw [heq] at hok
    injection hok with hok
    subst hok
    simp only [String.mk] at hch
    rcases mem_joinLines _ ch hch with ⟨r, hr, hcr⟩ | hnl
    · obtain ⟨row, -, rfl⟩ := List.mem_map.mp hr
      have := @mem_specRenderRow [c] (by simp) _ _ hcr
      exact .inl (List.mem_singleton.mp this)
    · exact .inr hnl

theorem C10_singleton_ramp_witness :
    (∀ p : ℕ, p ≤ 255 → pixelIndex ['x'] p = 0) ∧
    ∀ ch ∈ ("x\nx" : String).data, ch = 'x' ∨ ch = '\n' :=
  C10_singleton_ramp 'x' [[0], [255]] "x\nx" rfl

theorem C5_witness :
    image_to_ascii .fileNotFound defaultChars = fileNotFoundMsg ∧
    (∃ a b : List Char,
      fileNotFoundMsg.data.map Char.toLower = a ++ "not found".data ++ b) ∧
    mainStep (image_to_ascii .fileNotFound defaultChars) = .printError fileNotFoundMsg :=
  C5_file_not_found_result defaultChars

theorem C7_witness :
    image_to_ascii (.loaded [[0, 255]]) defaultChars = fileNotFoundMsg ∨
    (∃ e, image_to_ascii (.loaded [[0, 255]]) defaultChars = "An error occurred: " ++ e) ∨
    (∃ m art, LoadOutcome.loaded [[0, 255]] = .loaded m ∧
      renderMatrix defaultChars m = .ok art ∧
      image_to_ascii (.loaded [[0, 255]]) defaultChars = art) :=
  C7_never_raises (.loaded [[0, 255]]) defaultChars

end AsciiArt
